import Mathlib

/-!
Verification of the otk ODB-to-VTK converter against its specification.

The development shallowly embeds the translation and field-extraction engine
of `src/otk/converter.cpp` and the request validator of `src/otk/output.cpp`:

* element-type resolution against the static `ABQ_VTK_CELL_MAP` table
  (`get_base_element_type`, `get_cell_types`, `get_cells`, `get_points`);
* request matching (`frame_matches` for the sorted frame intersection,
  `field_matches_frame` for regex field matching, `match_step` for the
  per-step match object and the `convert` entry guard);
* the scalar field-extraction arithmetic (element-nodal accumulation and
  averaging, composite envelope reduction);
* the JSON output-request validator `is_output_request_valid`.

Strings from the C++ source are embedded as `List Char`; machine doubles
are embedded as `ℚ` (the claims under study only use exact operations:
abs, max, sum, division); `std::unordered_map` values are embedded as
association lists with assign-or-insert update; functions that can throw
(`.at` on a missing key) return `Option` / `Except`.
-/

namespace Otk

/-- VTK cell type constants used by the static element table. -/
inductive VTKCellType where
  | triangle
  | quad
  | quadraticTriangle
  | quadraticQuad
  | tetra
  | pyramid
  | wedge
  | hexahedron
  | quadraticTetra
  | quadraticWedge
  | quadraticHexahedron
deriving DecidableEq

/-- The static Abaqus-element-type → VTK-cell-type table `ABQ_VTK_CELL_MAP`
from `converter.hpp`, in source order (keys as character lists). -/
def ABQ_VTK_CELL_MAP : List (List Char × VTKCellType) :=
  [ (['C','P','E','3'], .triangle),
    (['C','P','E','4'], .quad),
    (['C','P','E','6'], .quadraticTriangle),
    (['C','P','E','8'], .quadraticQuad),
    (['C','P','S','3'], .triangle),
    (['C','P','S','4'], .quad),
    (['C','P','S','6'], .quadraticTriangle),
    (['C','P','S','8'], .quadraticQuad),
    (['C','P','E','G','4'], .quad),
    (['C','P','E','G','3'], .triangle),
    (['C','P','E','G','8'], .quadraticQuad),
    (['C','P','E','G','6'], .quadraticTriangle),
    (['C','A','X','3'], .triangle),
    (['C','A','X','4'], .quad),
    (['C','A','X','6'], .quadraticTriangle),
    (['C','A','X','8'], .quadraticQuad),
    (['C','3','D','4'], .tetra),
    (['C','3','D','5'], .pyramid),
    (['C','3','D','6'], .wedge),
    (['C','3','D','8'], .hexahedron),
    (['C','3','D','1','0'], .quadraticTetra),
    (['C','3','D','1','5'], .quadraticWedge),
    (['C','3','D','2','0'], .quadraticHexahedron),
    (['S','T','R','I','3'], .triangle),
    (['S','3'], .triangle),
    (['S','4'], .quad),
    (['S','8'], .quadraticQuad),
    (['S','C','6'], .wedge),
    (['S','C','8'], .hexahedron),
    (['C','S','S','8'], .hexahedron) ]

/-- Keys of the cell-map table, as produced by `extract_keys(ABQ_VTK_CELL_MAP)`. -/
def cellMapKeys : List (List Char) := ABQ_VTK_CELL_MAP.map Prod.fst

/-- The sentinel string returned for unsupported element types. -/
def Unsupported : List Char := ['U','n','s','u','p','p','o','r','t','e','d']

/-- `Converter::get_base_element_type`: scan the table keys and return the
first one that occurs at position 0 of the raw type code
(`element_type.rfind(supported_element, 0) != npos`, i.e. the key is a
prefix of the code); return the sentinel when no key matches. -/
def get_base_element_type (element_type : List Char) : List Char :=
  match cellMapKeys.find? (fun k => k.isPrefixOf element_type) with
  | some k => k
  | none => Unsupported

/-- `ABQ_VTK_CELL_MAP.at(key)` embedded as an association-list lookup that can
fail (`.at` throws on a missing key, modelled by `none`). -/
def cellMapAt (key : List Char) : Option VTKCellType :=
  (ABQ_VTK_CELL_MAP.find? (fun p => p.1 == key)).map Prod.snd

/-- An `odb_Element`: label, raw type code, connectivity (node labels),
and section-category name. -/
structure OdbElement where
  label : Int
  typeCode : List Char
  connectivity : List Int
  sectionCategory : List Char
deriving DecidableEq

/-- An `odb_Node`: label and coordinates (three components; planar archives
still expose a coordinate array, of which the code reads entries 0 and 1). -/
structure OdbNode where
  label : Int
  x : ℚ
  y : ℚ
  z : ℚ
deriving DecidableEq

/-- `odb_Enum::odb_DimensionEnum`: the embedded-space dimensionality of an
instance (`other` stands for any further enum value). -/
inductive OdbDimension where
  | threeD
  | twoDPlanar
  | axisymmetric
  | other
deriving DecidableEq

/-- A `std::unordered_map<int, vtkIdType>` node-label → point-index map,
embedded as an association list. -/
abbrev NodeMap : Type := List (Int × Nat)

/-- `map[k] = v` on an unordered map: replace the binding when the key is
present, insert it otherwise. -/
def assocSet : List (Int × Nat) → Int → Nat → List (Int × Nat)
  | [], k, v => [(k, v)]
  | (k', v') :: rest, k, v =>
    if k' = k then (k, v) :: rest else (k', v') :: assocSet rest k v

/-- `map.at(k)` / lookup on an unordered map, `none` when the key is absent. -/
def assocGet (m : List (Int × Nat)) (k : Int) : Option Nat :=
  (m.find? (fun p => p.1 == k)).map Prod.snd

/-- `Converter::get_points`: iterate the node sequence once; for 3-D
instances insert the three coordinates, for 2-D-planar and axisymmetric
instances insert `(x, y, 0)`; in both cases record
`node_map[label] = InsertNextPoint(...)`, the index of the inserted point.
Other dimensionalities insert nothing and record nothing.
Returns the point array together with the node map. -/
def get_points.step (instance_type : OdbDimension)
    (acc : List (ℚ × ℚ × ℚ) × NodeMap) (node : OdbNode) :
    List (ℚ × ℚ × ℚ) × NodeMap :=
  match instance_type with
  | .threeD =>
    (acc.1 ++ [(node.x, node.y, node.z)], assocSet acc.2 node.label acc.1.length)
  | .twoDPlanar =>
    (acc.1 ++ [(node.x, node.y, 0)], assocSet acc.2 node.label acc.1.length)
  | .axisymmetric =>
    (acc.1 ++ [(node.x, node.y, 0)], assocSet acc.2 node.label acc.1.length)
  | .other => acc

def get_points (node_sequence : List OdbNode) (instance_type : OdbDimension) :
    List (ℚ × ℚ × ℚ) × NodeMap :=
  node_sequence.foldl (get_points.step instance_type) ([], [])

/-- An element is translated (not skipped) iff its base type is not the
`Unsupported` sentinel. -/
def isSupported (e : OdbElement) : Bool :=
  get_base_element_type e.typeCode ≠ Unsupported

/-- `Converter::get_cell_types`: collect the set of VTK cell types of the
supported elements; `none` models a thrown exception from
`ABQ_VTK_CELL_MAP.at`. The `std::set` is embedded as a `Finset`. -/
def get_cell_types (element_sequence : List OdbElement) :
    Option (Finset VTKCellType) :=
  element_sequence.foldlM
    (fun acc e =>
      let element_type := get_base_element_type e.typeCode
      if element_type = Unsupported then some acc
      else (cellMapAt element_type).map (fun ct => insert ct acc))
    ∅

/-- Remap an element's connectivity through the node map
(`connectivity[j] = node_map.at(element_connectivity[j])` for each j);
`none` models the exception thrown by `.at` on a missing node label. -/
def mapConnectivity (node_map : NodeMap) : List Int → Option (List Nat)
  | [] => some []
  | l :: rest =>
    match assocGet node_map l, mapConnectivity node_map rest with
    | some idx, some conn => some (idx :: conn)
    | _, _ => none

/-- Append an element to the per-(section-category, raw-type) bucket of
`section_elements_`, creating the bucket when absent. -/
def appendSection (buckets : List (List Char × List OdbElement))
    (key : List Char) (e : OdbElement) : List (List Char × List OdbElement) :=
  match buckets with
  | [] => [(key, [e])]
  | (k, es) :: rest =>
    if k = key then (k, es ++ [e]) :: rest else (k, es) :: appendSection rest key e

/-- The two exceptions `Converter::get_cells` can raise: a failed
`ABQ_VTK_CELL_MAP.at` and a failed `node_map.at`. -/
inductive CellsError where
  | cellMapMiss
  | nodeMapMiss
deriving DecidableEq

/-- The outputs of `Converter::get_cells`: the parallel cell-type and
connectivity arrays (`cells.first` / `cells.second`), the per-section
element buckets (`section_elements_[instance]`), the element-label →
sequence-index map (`element_map_[instance]`) and the number of warnings
printed for skipped elements. -/
structure CellsResult where
  cellTypes : List VTKCellType
  connectivity : List (List Nat)
  sectionElements : List (List Char × List OdbElement)
  elementLabels : List (Int × Nat)
  warnings : Nat
deriving DecidableEq

/-- Loop body state for `get_cells`: `i` is the loop index over the element
sequence (it also counts skipped elements, and is the value recorded in
`element_labels`). -/
def get_cells.go (node_map : NodeMap) :
    List OdbElement → Nat → CellsResult → Except CellsError CellsResult
  | [], _, acc => .ok acc
  | e :: rest, i, acc =>
    let element_type := get_base_element_type e.typeCode
    if element_type = Unsupported then
      get_cells.go node_map rest (i + 1) { acc with warnings := acc.warnings + 1 }
    else
      match cellMapAt element_type with
      | none => .error .cellMapMiss
      | some cell_type =>
        match mapConnectivity node_map e.connectivity with
        | none => .error .nodeMapMiss
        | some conn =>
          let key := e.sectionCategory ++ ' ' :: e.typeCode
          get_cells.go node_map rest (i + 1)
            { cellTypes := acc.cellTypes ++ [cell_type]
              connectivity := acc.connectivity ++ [conn]
              sectionElements := appendSection acc.sectionElements key e
              elementLabels := assocSet acc.elementLabels e.label i
              warnings := acc.warnings }

/-- `Converter::get_cells`: iterate the element sequence; for each supported
element append its VTK cell type and remapped connectivity, bucket it by
(section category, raw type) and record `element_labels[label] = i`; for an
unsupported element print a warning and skip it. -/
def get_cells (node_map : NodeMap) (element_sequence : List OdbElement) :
    Except CellsError CellsResult :=
  get_cells.go node_map element_sequence 0
    { cellTypes := []
      connectivity := []
      sectionElements := []
      elementLabels := []
      warnings := 0 }

/-- `std::set_intersection` on two sorted ranges, as specified by the C++
standard: advance past smaller elements, copy an element when neither range's
current element is smaller than the other's. -/
def set_intersection : List Int → List Int → List Int
  | [], _ => []
  | _ :: _, [] => []
  | a :: as, b :: bs =>
    if a < b then set_intersection as (b :: bs)
    else if b < a then set_intersection (a :: as) bs
    else a :: set_intersection as bs
termination_by l₁ l₂ => l₁.length + l₂.length
decreasing_by all_goals simp_arith

/-- Frame matching from `Converter::match_request_to_available_data`: sort
the requested frame list (`std::sort`), then intersect it with the step's
available frame list via `std::set_intersection`. -/
def frame_matches (frame_list : List Int) (available : List Int) : List Int :=
  set_intersection (List.insertionSort (· ≤ ·) frame_list) available

/-- Regular expressions over characters, covering the constructs the
converter's field patterns use (literal characters, the `.` wildcard,
concatenation, alternation and Kleene star). -/
inductive RE where
  | emp
  | eps
  | any
  | chr (c : Char)
  | cat (r s : RE)
  | alt (r s : RE)
  | star (r : RE)
deriving DecidableEq

/-- Language semantics of a regular expression: `REMatch r s` holds iff the
WHOLE string `s` belongs to the language of `r` (the semantics of
`std::regex_match`, as opposed to the substring search of
`std::regex_search`). Star iterations are taken non-empty, which generates
the same language. -/
inductive REMatch : RE → List Char → Prop where
  | eps : REMatch .eps []
  | any (c : Char) : REMatch .any [c]
  | chr (c : Char) : REMatch (.chr c) [c]
  | cat {r s : RE} {u v : List Char} :
      REMatch r u → REMatch s v → REMatch (.cat r s) (u ++ v)
  | altL {r s : RE} {u : List Char} : REMatch r u → REMatch (.alt r s) u
  | altR {r s : RE} {u : List Char} : REMatch s u → REMatch (.alt r s) u
  | starNil (r : RE) : REMatch (.star r) []
  | starCons {r : RE} {u v : List Char} :
      u ≠ [] → REMatch r u → REMatch (.star r) v → REMatch (.star r) (u ++ v)

/-- Does the regular expression accept the empty string? -/
def RE.nullable : RE → Bool
  | .emp => false
  | .eps => true
  | .any => false
  | .chr _ => false
  | .cat r s => r.nullable && s.nullable
  | .alt r s => r.nullable || s.nullable
  | .star _ => true

/-- Brzozowski derivative of a regular expression by one character. -/
def RE.deriv : RE → Char → RE
  | .emp, _ => .emp
  | .eps, _ => .emp
  | .any, _ => .eps
  | .chr c, a => if a = c then .eps else .emp
  | .cat r s, a =>
    if r.nullable then .alt (.cat (r.deriv a) s) (s.deriv a)
    else .cat (r.deriv a) s
  | .alt r s, a => .alt (r.deriv a) (s.deriv a)
  | .star r, a => .cat (r.deriv a) (.star r)

/-- Executable full-string matcher by iterated derivatives. -/
def RE.rmatchFull (r : RE) (s : List Char) : Bool :=
  (s.foldl RE.deriv r).nullable

/-- One pattern atom: the `.` wildcard or a literal character. -/
def atomOf (c : Char) : RE :=
  if c = '.' then .any else .chr c

/-- Compile a requested field pattern to a regular expression, covering the
pattern subset the requests use: a literal character or the `.` wildcard,
each optionally followed by a `*` quantifier. -/
def compilePattern : List Char → RE
  | [] => .eps
  | c :: '*' :: rest => .cat (.star (atomOf c)) (compilePattern rest)
  | c :: rest => .cat (atomOf c) (compilePattern rest)

/-- `std::regex_match(field_name, std::regex(request))`: full-string match of
an available field name against a requested pattern. -/
def regex_match (request : List Char) (field_name : List Char) : Bool :=
  (compilePattern request).rmatchFull field_name

/-- The inner matching loops of `match_request_to_available_data`: for each
requested pattern (outer loop) and each available field name (inner loop),
push the name when the regex matches it in full. -/
def field_matches_frame (fields_requested : List (List Char))
    (field_names : List (List Char)) : List (List Char) :=
  fields_requested.flatMap (fun request =>
    field_names.filter (fun field_name => regex_match request field_name))

/-- `json::push_back` on a member that starts out `null`: the first push
turns it into a one-element array. -/
def pushBack {α : Type} : Option (List α) → α → Option (List α)
  | none, x => some [x]
  | some l, x => some (l ++ [x])

/-- The per-frame match object: the `"frame"` member and the `"fields"`
member, which stays absent (`none`) when no pattern matched any name. -/
structure FrameFieldMatches where
  frame : Int
  fields : Option (List (List Char))
deriving DecidableEq

/-- The per-step match object `matches[step]`: the `"frames"` array and the
`"fields"` member, which stays `null` (`none`) when nothing was ever pushed
onto it. -/
structure StepMatches where
  frames : List Int
  fields : Option (List FrameFieldMatches)
deriving DecidableEq

/-- One step of `Converter::match_request_to_available_data`: intersect the
requested frames with the available ones, then build one field-match object
per surviving frame. `available_fields` gives the available field names per
frame of this step. -/
def match_step (frame_list : List Int) (fields_requested : List (List Char))
    (available_frames : List Int) (available_fields : Int → List (List Char)) :
    StepMatches :=
  let fm := frame_matches frame_list available_frames
  { frames := fm
    fields := fm.foldl
      (fun acc frame =>
        let m := field_matches_frame fields_requested (available_fields frame)
        pushBack acc
          { frame := frame
            fields := if m = [] then none else some m })
      none }

/-- The abort guard at the top of `Converter::convert` for one step:
`step_data["fields"].is_null()` or `step_data["frames"].empty()` makes the
whole conversion return before any mesh or field output. -/
def step_aborts (m : StepMatches) : Bool :=
  m.fields.isNone || m.frames.isEmpty

/-- Element-wise maximum of a non-empty list of values; on `[]` (which the
code never hits) it returns 0. One output row of `maxEnvelope` applied to a
sequence of fields. -/
def listMax : List ℚ → ℚ
  | [] => 0
  | x :: xs => xs.foldl max x

/-- One output row of the composite reduction of `extract_scalar_field`
(converter.cpp lines 598-609): given the section-point values of the field at
that row, the code subsets the field by each section point and takes `abs`,
appends the raw (signed) field as well, and reduces with `maxEnvelope`. -/
def composite_reduction (section_point_values : List ℚ) : ℚ :=
  listMax (section_point_values.map (fun v => |v|) ++ section_point_values)

/-- The element-nodal accumulation loops of `extract_scalar_field` (lines
647-678): each bulk-data entry `(label, value)` does
`data_buffer[label - 1] += value; node_counts[label - 1]++`. The buffers are
embedded as functions from the (integer) buffer index. -/
def accumulate_element_nodal (entries : List (Int × ℚ)) :
    (Int → ℚ) × (Int → ℕ) :=
  entries.foldl
    (fun acc p =>
      (fun i => if i = p.1 - 1 then acc.1 i + p.2 else acc.1 i,
       fun i => if i = p.1 - 1 then acc.2 i + 1 else acc.2 i))
    (fun _ => 0, fun _ => 0)

/-- The extrapolated point value at buffer index `i` (lines 693-696):
`data_buffer[i] /= node_counts[i]` after all blocks were accumulated. -/
def extrapolate_scalar (entries : List (Int × ℚ)) (i : Int) : ℚ :=
  (accumulate_element_nodal entries).1 i /
    ((accumulate_element_nodal entries).2 i : ℚ)

/-- The sum of the contributions carrying node label `n`. -/
def sumAt (entries : List (Int × ℚ)) (n : Int) : ℚ :=
  ((entries.filter (fun p => p.1 == n)).map Prod.snd).sum

/-- The number of contributing (element, node) pairs at node label `n`. -/
def countAt (entries : List (Int × ℚ)) (n : Int) : ℕ :=
  entries.countP (fun p => p.1 == n)

/-- The `nlohmann::json` values an output request is built from. -/
inductive JVal where
  | null
  | boolean (b : Bool)
  | intNum (i : Int)
  | floatNum (q : ℚ)
  | str (s : List Char)
  | arr (elems : List JVal)
  | obj (fields : List (List Char × JVal))

/-- `json::contains`: true on an object that has the key. -/
def JVal.containsKey : JVal → List Char → Bool
  | .obj fields, k => fields.any (fun p => p.1 == k)
  | _, _ => false

/-- `operator[]` on a (const) object, used only under a `contains` guard. -/
def JVal.get : JVal → List Char → JVal
  | .obj fields, k => ((fields.find? (fun p => p.1 == k)).map Prod.snd).getD .null
  | _, _ => .null

/-- `json::is_array`. -/
def JVal.isArray : JVal → Bool
  | .arr _ => true
  | _ => false

/-- `json::is_string`. -/
def JVal.isString : JVal → Bool
  | .str _ => true
  | _ => false

/-- `json::is_number_integer`. -/
def JVal.isNumberInteger : JVal → Bool
  | .intNum _ => true
  | _ => false

/-- The elements of an array value (iteration, used under an `is_array`
guard). -/
def JVal.elements : JVal → List JVal
  | .arr l => l
  | _ => []

/-- The `"instances"` key. -/
def kInstances : List Char := ['i','n','s','t','a','n','c','e','s']

/-- The `"frames"` key. -/
def kFrames : List Char := ['f','r','a','m','e','s']

/-- The `"fields"` key. -/
def kFields : List Char := ['f','i','e','l','d','s']

/-- The `"step"` key. -/
def kStep : List Char := ['s','t','e','p']

/-- The `"list"` key. -/
def kList : List Char := ['l','i','s','t']

/-- The `"key"` key. -/
def kKey : List Char := ['k','e','y']

/-- `otk::is_output_request_valid` (output.cpp lines 21-88), translated check
by check: every early `return false` becomes one `if`-branch, the per-entry
loops become `any` over the failing condition. -/
def is_output_request_valid (r : JVal) : Bool :=
  if !(r.containsKey kInstances) then false
  else if !(r.get kInstances).isArray && !(r.get kInstances).isString then false
  else if (r.get kInstances).isArray && (r.get kInstances).elements.isEmpty then
    false
  else if (r.get kInstances).isArray &&
      (r.get kInstances).elements.any (fun i => !i.isString) then false
  else if !(r.containsKey kFrames) then false
  else if !(r.get kFrames).isArray then false
  else if (r.get kFrames).elements.isEmpty then false
  else if (r.get kFrames).elements.any (fun f =>
      !(f.containsKey kStep) || !(f.get kStep).isString ||
      !(f.containsKey kList) || !(f.get kList).isArray ||
      (f.get kList).elements.isEmpty ||
      (f.get kList).elements.any (fun x => !x.isNumberInteger)) then false
  else if !(r.containsKey kFields) then false
  else if !(r.get kFields).isArray then false
  else if (r.get kFields).elements.isEmpty then false
  else if (r.get kFields).elements.any (fun f =>
      !(f.containsKey kKey) || !(f.get kKey).isString) then false
  else true

/-- Modelled from the spec: one frame entry of the validity rule — a string
`step` and a non-empty all-integer `list`. -/
def frameEntryOk (f : JVal) : Bool :=
  f.containsKey kStep && ((f.get kStep).isString &&
    (f.containsKey kList && ((f.get kList).isArray &&
      (!(f.get kList).elements.isEmpty &&
        (f.get kList).elements.all (fun x => x.isNumberInteger)))))

/-- Modelled from the spec: one field entry of the validity rule — a string
`key`. -/
def fieldEntryOk (f : JVal) : Bool :=
  f.containsKey kKey && (f.get kKey).isString

/-- Modelled from the spec: the validity rule exactly as the claim states it
(`frames` and `fields` present as non-empty arrays, each frame entry with a
string `step` and a non-empty all-integer `list`, each field entry with a
string `key`), with NO constraint on `instances`. -/
def request_valid_spec (r : JVal) : Bool :=
  r.containsKey kFrames && ((r.get kFrames).isArray &&
    (!(r.get kFrames).elements.isEmpty &&
      ((r.get kFrames).elements.all frameEntryOk &&
        (r.containsKey kFields && ((r.get kFields).isArray &&
          (!(r.get kFields).elements.isEmpty &&
            (r.get kFields).elements.all fieldEntryOk))))))

/-- The `instances` check the code actually performs: the key must be
present, and its value must be a string or a non-empty array of strings. -/
def instances_check (r : JVal) : Bool :=
  r.containsKey kInstances &&
  ((r.get kInstances).isString ||
    ((r.get kInstances).isArray &&
     (!(r.get kInstances).elements.isEmpty &&
      (r.get kInstances).elements.all (fun i => i.isString))))

/-- A request with valid `frames` and `fields` members but no `instances`
key: `{"frames": [{"step": "Step-1", "list": [1]}], "fields": [{"key": "S"}]}`. -/
def request_no_instances : JVal :=
  .obj
    [ (kFrames, .arr [ .obj [ (kStep, .str ['S','t','e','p','-','1']),
                              (kList, .arr [ .intNum 1 ]) ] ]),
      (kFields, .arr [ .obj [ (kKey, .str ['S']) ] ]) ]

/-- No key of the static table is a prefix of another, distinct key; hence at
most one key can match any raw type code. -/
theorem cellMapKeys_pairwise :
    cellMapKeys.Pairwise
      (fun k k' => k.isPrefixOf k' = false ∧ k'.isPrefixOf k = false) := by
  decide

theorem key_not_pref_of_ne {k k' : List Char}
    (hk : k ∈ cellMapKeys) (hk' : k' ∈ cellMapKeys) (hne : k ≠ k') :
    ¬ k <+: k' := by
  have hsym : Symmetric
      (fun k k' : List Char =>
        k.isPrefixOf k' = false ∧ k'.isPrefixOf k = false) :=
    fun a b h => ⟨h.2, h.1⟩
  have h := (cellMapKeys_pairwise.forall hsym) hk hk' hne
  intro hp
  rw [← List.isPrefixOf_iff_prefix] at hp
  simp [h.1] at hp

/-- C6: `get_base_element_type` returns the longest key of the static
element-type table that is a prefix of the raw type code, and the sentinel
`Unsupported` exactly when no table key is a prefix of the code. -/
theorem c6_base_type_longest_matching_key (code : List Char) :
    (get_base_element_type code = Unsupported ∧
      ∀ k ∈ cellMapKeys, ¬ k <+: code) ∨
    (get_base_element_type code ∈ cellMapKeys ∧
      get_base_element_type code <+: code ∧
      ∀ k ∈ cellMapKeys, k <+: code →
        k.length ≤ (get_base_element_type code).length) := by
  unfold get_base_element_type
  cases h : cellMapKeys.find? (fun k => k.isPrefixOf code) with
  | none =>
    left
    refine ⟨rfl, fun k hk hp => ?_⟩
    have := List.find?_eq_none.mp h k hk
    rw [← List.isPrefixOf_iff_prefix] at hp
    simp [hp] at this
  | some k =>
    right
    have hmem := List.mem_of_find?_eq_some h
    have hpk := @List.find?_some _ (fun k => k.isPrefixOf code) k cellMapKeys h
    simp only [] at hpk
    rw [List.isPrefixOf_iff_prefix] at hpk
    refine ⟨hmem, hpk, fun k' hk' hp' => ?_⟩
    rcases List.prefix_or_prefix_of_prefix hp' hpk with h1 | h1
    · exact h1.length_le
    · by_cases he : k = k'
      · subst he; exact le_rfl
      · exact absurd h1 (key_not_pref_of_ne hmem hk' he)

/-- C6 witness: on the concrete codes `C3D8R` (reduced-integration brick) and
`XYZ` the resolved base types are `C3D8` and `Unsupported`. -/
theorem c6_base_type_longest_matching_key_witness :
    (get_base_element_type ['C','3','D','8','R'] = Unsupported ∧
      ∀ k ∈ cellMapKeys, ¬ k <+: ['C','3','D','8','R']) ∨
    (get_base_element_type ['C','3','D','8','R'] ∈ cellMapKeys ∧
      get_base_element_type ['C','3','D','8','R'] <+: ['C','3','D','8','R'] ∧
      ∀ k ∈ cellMapKeys, k <+: ['C','3','D','8','R'] →
        k.length ≤ (get_base_element_type ['C','3','D','8','R']).length) :=
  c6_base_type_longest_matching_key ['C','3','D','8','R']

theorem base_type_mem_or_unsupported (code : List Char) :
    get_base_element_type code ∈ cellMapKeys ∨
      get_base_element_type code = Unsupported := by
  rcases c6_base_type_longest_matching_key code with h | h
  · exact Or.inr h.1
  · exact Or.inl h.1

theorem cellMapAt_isSome_of_mem {k : List Char} (hk : k ∈ cellMapKeys) :
    (cellMapAt k).isSome = true := by
  have : ∃ p ∈ ABQ_VTK_CELL_MAP, (p.1 == k) = true := by
    rcases List.mem_map.mp hk with ⟨p, hp, hpk⟩
    exact ⟨p, hp, by simp [hpk]⟩
  have hfind := List.find?_isSome.mpr this
  unfold cellMapAt
  cases h : ABQ_VTK_CELL_MAP.find? (fun p => p.1 == k) with
  | none => rw [h] at hfind; simp at hfind
  | some p => simp

theorem cellMapAt_of_not_unsupported {code : List Char}
    (h : get_base_element_type code ≠ Unsupported) :
    (cellMapAt (get_base_element_type code)).isSome = true := by
  rcases base_type_mem_or_unsupported code with hm | hu
  · exact cellMapAt_isSome_of_mem hm
  · exact absurd hu h

theorem get_cell_types_go_isSome (elems : List OdbElement)
    (acc : Finset VTKCellType) :
    (elems.foldlM
      (fun acc e =>
        let element_type := get_base_element_type e.typeCode
        if element_type = Unsupported then some acc
        else (cellMapAt element_type).map (fun ct => insert ct acc))
      acc).isSome = true := by
  induction elems generalizing acc with
  | nil => simp
  | cons e rest ih =>
    simp only [List.foldlM_cons]
    by_cases h : get_base_element_type e.typeCode = Unsupported
    · simpa [h] using ih acc
    · have hs := cellMapAt_of_not_unsupported h
      cases hc : cellMapAt (get_base_element_type e.typeCode) with
      | none => rw [hc] at hs; simp at hs
      | some ct => simpa [h, hc] using ih (insert ct acc)

/-- C10: every resolved base type is either a key of `ABQ_VTK_CELL_MAP` or
the sentinel `Unsupported`; consequently the `ABQ_VTK_CELL_MAP.at` lookups
guarded by an `Unsupported` test never fail: `get_cell_types` succeeds on
every element sequence, and `get_cells` never raises the cell-map-miss
error on any element sequence and node map. -/
theorem c10_cell_map_lookups_never_fail :
    (∀ code : List Char,
      get_base_element_type code ∈ cellMapKeys ∨
        get_base_element_type code = Unsupported) ∧
    (∀ code : List Char, get_base_element_type code ≠ Unsupported →
      (cellMapAt (get_base_element_type code)).isSome = true) ∧
    (∀ elems : List OdbElement, (get_cell_types elems).isSome = true) ∧
    (∀ (nm : NodeMap) (elems : List OdbElement),
      get_cells nm elems ≠ .error .cellMapMiss) := by
  refine ⟨base_type_mem_or_unsupported, fun code => cellMapAt_of_not_unsupported,
    fun elems => get_cell_types_go_isSome elems ∅, fun nm elems => ?_⟩
  suffices h : ∀ (i : Nat) (acc : CellsResult),
      get_cells.go nm elems i acc ≠ .error .cellMapMiss by
    exact h 0 _
  induction elems with
  | nil => intro i acc; simp [get_cells.go]
  | cons e rest ih =>
    intro i acc
    by_cases h : get_base_element_type e.typeCode = Unsupported
    · simpa [get_cells.go, h] using ih (i + 1) _
    · have hs := cellMapAt_of_not_unsupported h
      cases hc : cellMapAt (get_base_element_type e.typeCode) with
      | none => rw [hc] at hs; simp at hs
      | some ct =>
        cases hm : mapConnectivity nm e.connectivity with
        | none => simp [get_cells.go, h, hc, hm]
        | some conn => simpa [get_cells.go, h, hc, hm] using ih (i + 1) _

theorem le_foldl_max (a : ℚ) (l : List ℚ) : a ≤ List.foldl max a l := by
  induction l generalizing a with
  | nil => simp
  | cons b bs ih =>
    simp only [List.foldl_cons]
    exact le_trans (le_max_left a b) (ih (max a b))

theorem mem_le_foldl_max {x : ℚ} (a : ℚ) {l : List ℚ} (hx : x ∈ l) :
    x ≤ List.foldl max a l := by
  induction l generalizing a with
  | nil => cases hx
  | cons b bs ih =>
    simp only [List.foldl_cons]
    rcases List.mem_cons.mp hx with h | h
    · subst h
      exact le_trans (le_max_right a x) (le_foldl_max _ _)
    · exact ih (max a b) h

theorem foldl_max_mem (a : ℚ) (l : List ℚ) :
    List.foldl max a l = a ∨ List.foldl max a l ∈ l := by
  induction l generalizing a with
  | nil => simp
  | cons b bs ih =>
    simp only [List.foldl_cons]
    rcases ih (max a b) with h | h
    · rcases max_choice a b with hm | hm
      · left; rw [h, hm]
      · right; rw [h, hm]; exact List.mem_cons_self _ _
    · right; exact List.mem_cons_of_mem _ h

theorem le_listMax {x : ℚ} {l : List ℚ} (hx : x ∈ l) : x ≤ listMax l := by
  cases l with
  | nil => cases hx
  | cons a as =>
    show x ≤ List.foldl max a as
    rcases List.mem_cons.mp hx with h | h
    · subst h; exact le_foldl_max _ _
    · exact mem_le_foldl_max _ h

theorem listMax_mem {l : List ℚ} (hl : l ≠ []) : listMax l ∈ l := by
  cases l with
  | nil => exact absurd rfl hl
  | cons a as =>
    show List.foldl max a as ∈ a :: as
    rcases foldl_max_mem a as with h | h
    · rw [h]; exact List.mem_cons_self _ _
    · exact List.mem_cons_of_mem _ h

/-- C1: the composite envelope of `extract_scalar_field` — the element-wise
`maxEnvelope` of the per-section-point absolute-value fields together with the
raw field — equals, at every output row, the maximum of the absolute values of
the section-point values; every raw signed value is dominated by it. -/
theorem c1_composite_envelope_abs_max (vals : List ℚ) (h : vals ≠ []) :
    composite_reduction vals = listMax (vals.map (fun v => |v|)) ∧
    ∀ v ∈ vals, v ≤ composite_reduction vals ∧
      |v| ≤ composite_reduction vals := by
  have habs_ne : vals.map (fun v => |v|) ≠ [] := by
    simpa using h
  have happ_ne : vals.map (fun v => |v|) ++ vals ≠ [] := by
    simp [h]
  have hle1 : listMax (vals.map (fun v => |v|)) ≤ composite_reduction vals := by
    apply le_listMax
    exact List.mem_append_left _ (listMax_mem habs_ne)
  have hle2 : composite_reduction vals ≤ listMax (vals.map (fun v => |v|)) := by
    have hmem := listMax_mem happ_ne
    unfold composite_reduction at hmem ⊢
    rcases List.mem_append.mp hmem with hm | hm
    · exact le_listMax hm
    · calc listMax (vals.map (fun v => |v|) ++ vals)
          ≤ |listMax (vals.map (fun v => |v|) ++ vals)| := le_abs_self _
      _ ≤ listMax (vals.map (fun v => |v|)) := by
          apply le_listMax
          exact List.mem_map.mpr ⟨_, hm, rfl⟩
  have heq := le_antisymm hle2 hle1
  refine ⟨heq, fun v hv => ?_⟩
  have h1 : |v| ≤ composite_reduction vals := by
    apply le_listMax
    exact List.mem_append_left _ (List.mem_map.mpr ⟨v, hv, rfl⟩)
  exact ⟨le_trans (le_abs_self v) h1, h1⟩

/-- C1 witness: section-point values `[-5, 2, -8]` envelope to `8`, not `-8`
and not `2`. -/
theorem c1_composite_envelope_abs_max_witness :
    (([-5, 2, -8] : List ℚ) ≠ []) ∧
    composite_reduction [-5, 2, -8] = 8 ∧
    ((8 : ℚ) ≠ -8) ∧ ((8 : ℚ) ≠ 2) := by
  have h := (c1_composite_envelope_abs_max [-5, 2, -8] (by simp)).1
  refine ⟨by simp, ?_, by norm_num, by norm_num⟩
  rw [h]
  norm_num [listMax]

theorem accumulate_element_nodal_apply (entries : List (Int × ℚ)) (n : Int) :
    (accumulate_element_nodal entries).1 (n - 1) = sumAt entries n ∧
    (accumulate_element_nodal entries).2 (n - 1) = countAt entries n := by
  suffices h : ∀ (buf : Int → ℚ) (cnt : Int → ℕ),
      (entries.foldl
        (fun (acc : (Int → ℚ) × (Int → ℕ)) p =>
          (fun i => if i = p.1 - 1 then acc.1 i + p.2 else acc.1 i,
           fun i => if i = p.1 - 1 then acc.2 i + 1 else acc.2 i))
        (buf, cnt)).1 (n - 1) = buf (n - 1) + sumAt entries n ∧
      (entries.foldl
        (fun (acc : (Int → ℚ) × (Int → ℕ)) p =>
          (fun i => if i = p.1 - 1 then acc.1 i + p.2 else acc.1 i,
           fun i => if i = p.1 - 1 then acc.2 i + 1 else acc.2 i))
        (buf, cnt)).2 (n - 1) = cnt (n - 1) + countAt entries n by
    have := h (fun _ => 0) (fun _ => 0)
    simpa [accumulate_element_nodal] using this
  induction entries with
  | nil => intro buf cnt; simp [sumAt, countAt]
  | cons p rest ih =>
    intro buf cnt
    simp only [List.foldl_cons]
    have hstep := ih
      (fun i => if i = p.1 - 1 then buf i + p.2 else buf i)
      (fun i => if i = p.1 - 1 then cnt i + 1 else cnt i)
    rcases hstep with ⟨h1, h2⟩
    constructor
    · rw [h1]
      by_cases hp : p.1 = n
      · simp [sumAt, hp, List.filter_cons]
        ring
      · have hne : ¬ (n - 1 = p.1 - 1) := by omega
        have hne' : (p.1 == n) = false := by simp [hp]
        simp [sumAt, hne, hne', List.filter_cons]
    · rw [h2]
      by_cases hp : p.1 = n
      · simp [countAt, hp, List.countP_cons]
        ring
      · have hne : ¬ (n - 1 = p.1 - 1) := by omega
        have hne' : (p.1 == n) = false := by simp [hp]
        simp [countAt, hne, hne', List.countP_cons]

theorem sumAt_const {entries : List (Int × ℚ)} {n : Int} {v : ℚ}
    (hv : ∀ p ∈ entries, p.1 = n → p.2 = v) :
    sumAt entries n = (countAt entries n : ℚ) * v := by
  induction entries with
  | nil => simp [sumAt, countAt]
  | cons p rest ih =>
    have ih' := ih (fun q hq hqn => hv q (List.mem_cons_of_mem _ hq) hqn)
    by_cases hp : p.1 = n
    · have hpv : p.2 = v := hv p (List.mem_cons_self _ _) hp
      simp only [sumAt, countAt, List.filter_cons, List.countP_cons] at ih' ⊢
      simp [hp, hpv, ih']
      ring
    · have hne : (p.1 == n) = false := by simp [hp]
      simp only [sumAt, countAt, List.filter_cons, List.countP_cons] at ih' ⊢
      simp [hne, ih']

/-- C2: for a scalar integration-point field (the extrapolated point-data
path of `extract_scalar_field`, non-composite), the output value at the
buffer row of node `n` equals — for every entry list, heterogeneous
contributions included — the running sum of the element-nodal contributions
at `n` divided by the number of contributing (element, node) pairs; and when
all contributions at `n` carry the same value `v`, the result is exactly `v`
— not `v` times the number of contributing elements. -/
theorem c2_nodal_average (entries : List (Int × ℚ)) (n : Int) :
    extrapolate_scalar entries (n - 1) =
      sumAt entries n / (countAt entries n : ℚ) ∧
    ∀ v : ℚ, (∀ p ∈ entries, p.1 = n → p.2 = v) → 0 < countAt entries n →
      extrapolate_scalar entries (n - 1) = v := by
  have h := accumulate_element_nodal_apply entries n
  have heq : extrapolate_scalar entries (n - 1) =
      sumAt entries n / (countAt entries n : ℚ) := by
    unfold extrapolate_scalar
    rw [h.1, h.2]
  refine ⟨heq, ?_⟩
  intro v hv hk
  rw [heq, sumAt_const hv]
  have hk0 : countAt entries n ≠ 0 := Nat.pos_iff_ne_zero.mp hk
  have hk' : (countAt entries n : ℚ) ≠ 0 := Nat.cast_ne_zero.mpr hk0
  field_simp

/-- C2 witness: for heterogeneous contributions `[(1,3),(1,9),(2,7)]` the
value at node 1 is the sum 12 over the count 2; and a node (label 1) touched
by 3 elements, each contributing the integration-point value 5, extrapolates
to exactly 5 — not 15. -/
theorem c2_nodal_average_witness :
    extrapolate_scalar [(1, 3), (1, 9), (2, 7)] 0 =
      sumAt [(1, 3), (1, 9), (2, 7)] 1 /
        (countAt [(1, 3), (1, 9), (2, 7)] 1 : ℚ) ∧
    extrapolate_scalar [(1, 3), (1, 9), (2, 7)] 0 = 6 ∧
    (∀ p ∈ ([(1, 5), (1, 5), (1, 5)] : List (Int × ℚ)), p.1 = 1 → p.2 = 5) ∧
    0 < countAt [(1, 5), (1, 5), (1, 5)] 1 ∧
    extrapolate_scalar [(1, 5), (1, 5), (1, 5)] 0 = 5 := by
  have hmix := (c2_nodal_average [(1, 3), (1, 9), (2, 7)] 1).1
  have h5 := (c2_nodal_average [(1, 5), (1, 5), (1, 5)] 1).2 5
    (by intro p hp _; simp at hp; simp [hp])
    (by simp [countAt])
  refine ⟨hmix, ?_, by intro p hp _; simp at hp; simp [hp],
    by simp [countAt], h5⟩
  have hmix0 : extrapolate_scalar [(1, 3), (1, 9), (2, 7)] 0 =
      sumAt [(1, 3), (1, 9), (2, 7)] 1 /
        (countAt [(1, 3), (1, 9), (2, 7)] 1 : ℚ) := hmix
  rw [hmix0]
  norm_num [sumAt, countAt]

theorem set_intersection_eq_filter :
    ∀ (req avail : List Int), req.Sorted (· ≤ ·) → avail.Sorted (· < ·) →
      set_intersection req avail = avail.filter (fun a => decide (a ∈ req))
  | [], avail, _, _ => by
    simp [set_intersection]
  | _ :: _, [], _, _ => by
    simp [set_intersection]
  | a :: as, b :: bs, hreq, havail => by
    have hreq' : as.Sorted (· ≤ ·) := hreq.of_cons
    have havail' : bs.Sorted (· < ·) := havail.of_cons
    have hreq_head := List.rel_of_sorted_cons hreq
    have havail_head := List.rel_of_sorted_cons havail
    by_cases h1 : a < b
    · rw [set_intersection]
      simp only [if_pos h1]
      rw [set_intersection_eq_filter as (b :: bs) hreq' havail]
      apply List.filter_congr
      intro x hx
      have hbx : b ≤ x := by
        rcases List.mem_cons.mp hx with h | h
        · exact le_of_eq h.symm
        · exact le_of_lt (havail_head x h)
      have hax : x ≠ a := by omega
      simp [List.mem_cons, hax]
    · by_cases h2 : b < a
      · rw [set_intersection]
        simp only [if_neg h1, if_pos h2]
        rw [set_intersection_eq_filter (a :: as) bs hreq havail']
        have hbmem : b ∉ a :: as := by
          intro hmem
          rcases List.mem_cons.mp hmem with h | h
          · omega
          · have := hreq_head b h; omega
        rw [List.filter_cons]
        simp [hbmem]
      · have hab : a = b := by omega
        subst hab
        rw [set_intersection]
        simp only [if_neg h1, if_neg h2]
        rw [set_intersection_eq_filter as bs hreq' havail']
        have hcond : (decide (a ∈ a :: as)) = true := by simp
        rw [List.filter_cons]
        simp only [hcond, if_true]
        congr 1
        apply List.filter_congr
        intro x hx
        have hax : x ≠ a := by
          have := havail_head x hx; omega
        simp [List.mem_cons, hax]
termination_by req avail => req.length + avail.length
decreasing_by all_goals simp_arith

theorem frame_matches_eq_filter (frame_list avail : List Int)
    (havail : avail.Sorted (· < ·)) :
    frame_matches frame_list avail =
      avail.filter (fun a => decide (a ∈ frame_list)) := by
  unfold frame_matches
  rw [set_intersection_eq_filter _ _ (List.sorted_insertionSort _ _) havail]
  apply List.filter_congr
  intro x _
  simp [List.Perm.mem_iff (List.perm_insertionSort _ _)]

/-- C3: for a step with (sorted, duplicate-free) available frame list, the
resolved frame list of `match_request_to_available_data` is the filter of the
available list by requested membership — hence sorted, duplicate-free, exactly
the set intersection, and independent of the order and multiplicity of the
request. -/
theorem c3_frame_intersection (frame_list avail : List Int)
    (havail : avail.Sorted (· < ·)) :
    frame_matches frame_list avail =
      avail.filter (fun a => decide (a ∈ frame_list)) ∧
    (frame_matches frame_list avail).Sorted (· < ·) ∧
    (frame_matches frame_list avail).Nodup ∧
    (∀ x, x ∈ frame_matches frame_list avail ↔
      x ∈ frame_list ∧ x ∈ avail) ∧
    (∀ other_request : List Int, (∀ x, x ∈ other_request ↔ x ∈ frame_list) →
      frame_matches other_request avail = frame_matches frame_list avail) := by
  have heq := frame_matches_eq_filter frame_list avail havail
  have hsorted : (frame_matches frame_list avail).Sorted (· < ·) := by
    rw [heq]; exact havail.filter _
  refine ⟨heq, hsorted, hsorted.nodup, fun x => ?_, fun req' hr => ?_⟩
  · rw [heq]
    simp only [List.mem_filter, decide_eq_true_eq]
    exact ⟨fun ⟨h1, h2⟩ => ⟨h2, h1⟩, fun ⟨h1, h2⟩ => ⟨h2, h1⟩⟩
  · rw [heq, frame_matches_eq_filter req' avail havail]
    apply List.filter_congr
    intro x _
    simp [hr x]

/-- C3 witness: requesting frames `[5, 1, 5, 3]` against available frames
`[1, 2, 3, 4, 5]` yields exactly `[1, 3, 5]`. -/
theorem c3_frame_intersection_witness :
    ([1, 2, 3, 4, 5] : List Int).Sorted (· < ·) ∧
    frame_matches [5, 1, 5, 3] [1, 2, 3, 4, 5] = [1, 3, 5] := by
  constructor
  · decide
  · rw [(c3_frame_intersection [5, 1, 5, 3] [1, 2, 3, 4, 5] (by decide)).1]
    decide

theorem emp_not_match {w : List Char} (h : REMatch .emp w) : False := by
  cases h

theorem eps_inv {w : List Char} (h : REMatch .eps w) : w = [] := by
  cases h; rfl

theorem any_inv {w : List Char} (h : REMatch .any w) : ∃ c, w = [c] := by
  cases h; exact ⟨_, rfl⟩

theorem chr_inv {c : Char} {w : List Char} (h : REMatch (.chr c) w) :
    w = [c] := by
  cases h; rfl

theorem cat_inv {r s : RE} {w : List Char} (h : REMatch (.cat r s) w) :
    ∃ u v, w = u ++ v ∧ REMatch r u ∧ REMatch s v := by
  cases h with
  | cat hu hv => exact ⟨_, _, rfl, hu, hv⟩

theorem alt_inv {r s : RE} {w : List Char} (h : REMatch (.alt r s) w) :
    REMatch r w ∨ REMatch s w := by
  cases h with
  | altL h => exact Or.inl h
  | altR h => exact Or.inr h

theorem star_inv {r : RE} {w : List Char} (h : REMatch (.star r) w) :
    w = [] ∨ ∃ u v, w = u ++ v ∧ u ≠ [] ∧ REMatch r u ∧ REMatch (.star r) v := by
  cases h with
  | starNil => exact Or.inl rfl
  | starCons hne hu hv => exact Or.inr ⟨_, _, rfl, hne, hu, hv⟩

theorem nullable_iff (r : RE) : r.nullable = true ↔ REMatch r [] := by
  induction r with
  | emp =>
    constructor
    · intro h; simp [RE.nullable] at h
    · intro h; exact absurd h emp_not_match
  | eps => simp only [RE.nullable, true_iff]; exact .eps
  | any =>
    constructor
    · intro h; simp [RE.nullable] at h
    · intro h
      rcases any_inv h with ⟨c, hc⟩
      cases hc
  | chr c =>
    constructor
    · intro h; simp [RE.nullable] at h
    · intro h
      cases chr_inv h
  | cat r s ihr ihs =>
    simp only [RE.nullable, Bool.and_eq_true, ihr, ihs]
    constructor
    · rintro ⟨h1, h2⟩
      exact REMatch.cat h1 h2
    · intro h
      rcases cat_inv h with ⟨u, v, huv, hu, hv⟩
      rcases List.append_eq_nil.mp huv.symm with ⟨hu0, hv0⟩
      subst hu0; subst hv0
      exact ⟨hu, hv⟩
  | alt r s ihr ihs =>
    simp only [RE.nullable, Bool.or_eq_true, ihr, ihs]
    constructor
    · rintro (h | h)
      · exact .altL h
      · exact .altR h
    · intro h
      exact alt_inv h
  | star r ih =>
    simp only [RE.nullable, true_iff]
    exact .starNil r

theorem deriv_iff (r : RE) :
    ∀ (a : Char) (s : List Char),
      REMatch (r.deriv a) s ↔ REMatch r (a :: s) := by
  induction r with
  | emp =>
    intro a s
    simp only [RE.deriv]
    exact ⟨fun h => absurd h emp_not_match, fun h => absurd h emp_not_match⟩
  | eps =>
    intro a s
    simp only [RE.deriv]
    constructor
    · intro h; exact absurd h emp_not_match
    · intro h; cases eps_inv h
  | any =>
    intro a s
    simp only [RE.deriv]
    constructor
    · intro h; rw [eps_inv h]; exact .any a
    · intro h
      rcases any_inv h with ⟨c, hc⟩
      cases hc
      exact .eps
  | chr c =>
    intro a s
    simp only [RE.deriv]
    by_cases hac : a = c
    · subst hac
      simp only [if_pos rfl]
      constructor
      · intro h; rw [eps_inv h]; exact .chr a
      · intro h
        have := chr_inv h
        cases this
        exact .eps
    · simp only [if_neg hac]
      constructor
      · intro h; exact absurd h emp_not_match
      · intro h
        have := chr_inv h
        injection this with h1 h2
        exact absurd h1 hac
  | cat r q ihr ihq =>
    intro a s
    simp only [RE.deriv]
    by_cases hn : r.nullable = true
    · rw [if_pos hn]
      constructor
      · intro h
        rcases alt_inv h with h | h
        · rcases cat_inv h with ⟨u, v, huv, hu, hv⟩
          subst huv
          have : REMatch r (a :: u) := (ihr a u).mp hu
          exact (List.cons_append a u v ▸ REMatch.cat this hv)
        · have h0 : REMatch r [] := (nullable_iff r).mp hn
          have : REMatch q (a :: s) := (ihq a s).mp h
          exact (REMatch.cat h0 this : REMatch (.cat r q) ([] ++ a :: s))
      · intro h
        rcases cat_inv h with ⟨u, v, huv, hu, hv⟩
        cases u with
        | nil =>
          simp only [List.nil_append] at huv
          subst huv
          exact .altR ((ihq a s).mpr hv)
        | cons u0 us =>
          injection huv with h1 h2
          subst h1
          subst h2
          exact .altL (REMatch.cat ((ihr a us).mpr hu) hv)
    · rw [if_neg hn]
      constructor
      · intro h
        rcases cat_inv h with ⟨u, v, huv, hu, hv⟩
        subst huv
        have : REMatch r (a :: u) := (ihr a u).mp hu
        exact (List.cons_append a u v ▸ REMatch.cat this hv)
      · intro h
        rcases cat_inv h with ⟨u, v, huv, hu, hv⟩
        cases u with
        | nil =>
          simp only [List.nil_append] at huv
          exact absurd ((nullable_iff r).mpr hu) (by simp [hn])
        | cons u0 us =>
          injection huv with h1 h2
          subst h1
          subst h2
          exact REMatch.cat ((ihr a us).mpr hu) hv
  | alt r q ihr ihq =>
    intro a s
    simp only [RE.deriv]
    constructor
    · intro h
      rcases alt_inv h with h | h
      · exact .altL ((ihr a s).mp h)
      · exact .altR ((ihq a s).mp h)
    · intro h
      rcases alt_inv h with h | h
      · exact .altL ((ihr a s).mpr h)
      · exact .altR ((ihq a s).mpr h)
  | star r ih =>
    intro a s
    simp only [RE.deriv]
    constructor
    · intro h
      rcases cat_inv h with ⟨u, v, huv, hu, hv⟩
      subst huv
      have hru : REMatch r (a :: u) := (ih a u).mp hu
      exact (List.cons_append a u v ▸
        REMatch.starCons (by simp) hru hv)
    · intro h
      rcases star_inv h with h0 | ⟨u, v, huv, hne, hu, hv⟩
      · cases h0
      · cases u with
        | nil => exact absurd rfl hne
        | cons u0 us =>
          injection huv with h1 h2
          subst h1
          subst h2
          exact REMatch.cat ((ih a us).mpr hu) hv

theorem rmatchFull_iff (r : RE) (s : List Char) :
    r.rmatchFull s = true ↔ REMatch r s := by
  induction s generalizing r with
  | nil => exact nullable_iff r
  | cons a as ih =>
    unfold RE.rmatchFull at ih ⊢
    rw [List.foldl_cons]
    rw [ih (r.deriv a)]
    exact deriv_iff r a as

/-- C4: a field name enters a frame's matched field list iff some requested
pattern, compiled as a regex, matches the ENTIRE name (full-string
`std::regex_match` semantics, not substring search); in particular the
pattern `S` does not match the field name `S11` while the pattern `S.*`
does. -/
theorem c4_regex_full_match :
    (∀ (fields_requested field_names : List (List Char)) (name : List Char),
      name ∈ field_matches_frame fields_requested field_names ↔
        ∃ request ∈ fields_requested, name ∈ field_names ∧
          REMatch (compilePattern request) name) ∧
    regex_match ['S'] ['S','1','1'] = false ∧
    regex_match ['S','.','*'] ['S','1','1'] = true ∧
    ¬ REMatch (compilePattern ['S']) ['S','1','1'] ∧
    REMatch (compilePattern ['S','.','*']) ['S','1','1'] := by
  have hmem : ∀ (fields_requested field_names : List (List Char))
      (name : List Char),
      name ∈ field_matches_frame fields_requested field_names ↔
        ∃ request ∈ fields_requested, name ∈ field_names ∧
          REMatch (compilePattern request) name := by
    intro pats names name
    unfold field_matches_frame
    rw [List.mem_flatMap]
    constructor
    · rintro ⟨p, hp, hmem⟩
      rcases List.mem_filter.mp hmem with ⟨hn, hb⟩
      exact ⟨p, hp, hn, (rmatchFull_iff _ _).mp hb⟩
    · rintro ⟨p, hp, hn, hm⟩
      exact ⟨p, hp, List.mem_filter.mpr ⟨hn, (rmatchFull_iff _ _).mpr hm⟩⟩
  have h1 : regex_match ['S'] ['S','1','1'] = false := by decide
  have h2 : regex_match ['S','.','*'] ['S','1','1'] = true := by decide
  refine ⟨hmem, h1, h2, ?_, ?_⟩
  · intro hm
    have := (rmatchFull_iff (compilePattern ['S']) ['S','1','1']).mpr hm
    rw [regex_match] at h1
    rw [this] at h1
    cases h1
  · exact (rmatchFull_iff _ _).mp h2

/-- C5 (code evaluation at the failing input): with one step whose available
frames are `[0]` and whose only available field at frame 0 is `U`, a request
for frames `[0]` and field pattern `S` produces a step match with a non-empty
frame list and an all-empty matched field list — yet the `convert` guard does
NOT abort: `step_data["fields"]` is a non-null array (one entry per surviving
frame, each lacking a `fields` member), so neither `is_null()` nor
`empty()` fires, and the conversion proceeds to mesh and field output. -/
theorem c5_empty_field_list_not_aborted :
    field_matches_frame [['S']] [['U']] = [] ∧
    (match_step [0] [['S']] [0] (fun _ => [['U']])).frames = [0] ∧
    (match_step [0] [['S']] [0] (fun _ => [['U']])).fields =
      some [{ frame := 0, fields := none }] ∧
    step_aborts (match_step [0] [['S']] [0] (fun _ => [['U']])) = false := by
  have hfm : frame_matches [0] [0] = [0] := by
    simp [frame_matches, set_intersection]
  have hff : field_matches_frame [['S']] [['U']] = [] := by decide
  refine ⟨hff, ?_, ?_, ?_⟩ <;>
    simp [match_step, hfm, hff, pushBack, step_aborts]


theorem assocGet_cons_eq {p : Int × Nat} {m : List (Int × Nat)} {l : Int}
    (h : p.1 = l) : assocGet (p :: m) l = some p.2 := by
  have hb : (p.1 == l) = true := by simp [h]
  simp [assocGet, List.find?_cons, hb]

theorem assocGet_cons_ne {p : Int × Nat} {m : List (Int × Nat)} {l : Int}
    (h : p.1 ≠ l) : assocGet (p :: m) l = assocGet m l := by
  have hb : (p.1 == l) = false := by simp [h]
  simp [assocGet, List.find?_cons, hb]

theorem assocGet_assocSet (m : List (Int × Nat)) (k : Int) (v : Nat) (l : Int) :
    assocGet (assocSet m k v) l = if l = k then some v else assocGet m l := by
  induction m with
  | nil =>
    show assocGet [(k, v)] l = _
    by_cases h : l = k
    · rw [if_pos h, assocGet_cons_eq h.symm]
    · rw [if_neg h, assocGet_cons_ne (fun hc => h hc.symm)]
  | cons p rest ih =>
    by_cases hk : p.1 = k
    · have hstep : assocSet (p :: rest) k v = (k, v) :: rest := by
        cases p; simp_all [assocSet]
      rw [hstep]
      by_cases h : l = k
      · rw [if_pos h, assocGet_cons_eq h.symm]
      · rw [if_neg h, assocGet_cons_ne (fun hc => h hc.symm),
          assocGet_cons_ne (by omega)]
    · have hstep : assocSet (p :: rest) k v = p :: assocSet rest k v := by
        cases p; simp_all [assocSet]
      rw [hstep]
      by_cases hpl : p.1 = l
      · have h : ¬ (l = k) := by omega
        rw [if_neg h, assocGet_cons_eq hpl, assocGet_cons_eq hpl]
      · rw [assocGet_cons_ne hpl, ih, assocGet_cons_ne hpl]

theorem assocGet_assocSet_isSome (m : List (Int × Nat)) (k : Int) (v : Nat)
    (l : Int) :
    (assocGet (assocSet m k v) l).isSome = true ↔
      l = k ∨ (assocGet m l).isSome = true := by
  rw [assocGet_assocSet]
  by_cases h : l = k <;> simp [h]

theorem assocSet_val_mem {m : List (Int × Nat)} {k : Int} {v : Nat}
    {p : Int × Nat} (hp : p ∈ assocSet m k v) : p.2 = v ∨ p ∈ m := by
  induction m with
  | nil => simp [assocSet] at hp; simp [hp]
  | cons q rest ih =>
    by_cases hk : q.1 = k
    · have hstep : assocSet (q :: rest) k v = (k, v) :: rest := by
        cases q; simp_all [assocSet]
      rw [hstep] at hp
      rcases List.mem_cons.mp hp with h | h
      · left; rw [h]
      · right; exact List.mem_cons_of_mem _ h
    · have hstep : assocSet (q :: rest) k v = q :: assocSet rest k v := by
        cases q; simp_all [assocSet]
      rw [hstep] at hp
      rcases List.mem_cons.mp hp with h | h
      · right; rw [h]; exact List.mem_cons_self _ _
      · rcases ih h with h' | h'
        · left; exact h'
        · right; exact List.mem_cons_of_mem _ h'

theorem assocGet_mem {m : List (Int × Nat)} {k : Int} {v : Nat}
    (h : assocGet m k = some v) : ∃ p ∈ m, p.2 = v := by
  unfold assocGet at h
  cases hf : m.find? (fun p => p.1 == k) with
  | none => rw [hf] at h; cases h
  | some p =>
    rw [hf] at h
    refine ⟨p, List.mem_of_find?_eq_some hf, ?_⟩
    simpa using h

theorem mapConnectivity_isSome {nm : NodeMap} {c : List Int}
    (h : ∀ l ∈ c, (assocGet nm l).isSome = true) :
    (mapConnectivity nm c).isSome = true := by
  induction c with
  | nil => simp [mapConnectivity]
  | cons a rest ih =>
    have ha := h a (List.mem_cons_self _ _)
    have hrest := ih (fun l hl => h l (List.mem_cons_of_mem _ hl))
    unfold mapConnectivity
    cases hga : assocGet nm a with
    | none => rw [hga] at ha; cases ha
    | some idx =>
      cases hmc : mapConnectivity nm rest with
      | none => rw [hmc] at hrest; cases hrest
      | some conn => simp

theorem mapConnectivity_bound {nm : NodeMap} {c : List Int} {conn : List Nat}
    {N : Nat} (h : mapConnectivity nm c = some conn)
    (hb : ∀ p ∈ nm, p.2 < N) :
    ∀ idx ∈ conn, idx < N := by
  induction c generalizing conn with
  | nil =>
    simp [mapConnectivity] at h
    subst h
    intro idx hidx
    cases hidx
  | cons a rest ih =>
    unfold mapConnectivity at h
    cases hga : assocGet nm a with
    | none => rw [hga] at h; cases h
    | some idx0 =>
      cases hmc : mapConnectivity nm rest with
      | none => rw [hga, hmc] at h; cases h
      | some conn' =>
        rw [hga, hmc] at h
        simp at h
        subst h
        intro idx hidx
        rcases List.mem_cons.mp hidx with h' | h'
        · subst h'
          rcases assocGet_mem hga with ⟨p, hp, hpv⟩
          rw [← hpv]
          exact hb p hp
        · exact ih hmc idx h'

theorem get_points_step_shape (t : OdbDimension) (pts : List (ℚ × ℚ × ℚ))
    (nm : NodeMap) (node : OdbNode)
    (ht : t = .threeD ∨ t = .twoDPlanar ∨ t = .axisymmetric) :
    ∃ pt, get_points.step t (pts, nm) node =
      (pts ++ [pt], assocSet nm node.label pts.length) := by
  rcases ht with h | h | h <;> subst h <;> exact ⟨_, rfl⟩

theorem get_points_fold_inv :
    ∀ (nodes : List OdbNode) (t : OdbDimension) (pts : List (ℚ × ℚ × ℚ))
      (nm : NodeMap),
      (t = .threeD ∨ t = .twoDPlanar ∨ t = .axisymmetric) →
      (∀ p ∈ nm, p.2 < pts.length) →
      (nodes.foldl (get_points.step t) (pts, nm)).1.length =
        pts.length + nodes.length ∧
      (∀ p ∈ (nodes.foldl (get_points.step t) (pts, nm)).2,
        p.2 < (nodes.foldl (get_points.step t) (pts, nm)).1.length) ∧
      (∀ l : Int, ((assocGet nm l).isSome = true ∨ ∃ n ∈ nodes, n.label = l) →
        (assocGet (nodes.foldl (get_points.step t) (pts, nm)).2 l).isSome
          = true) := by
  intro nodes
  induction nodes with
  | nil =>
    intro t pts nm ht hb
    refine ⟨by simp, by simpa using hb, ?_⟩
    intro l hl
    rcases hl with h | ⟨n, hn, _⟩
    · simpa using h
    · cases hn
  | cons node rest ih =>
    intro t pts nm ht hb
    rw [List.foldl_cons]
    rcases get_points_step_shape t pts nm node ht with ⟨pt, hshape⟩
    rw [hshape]
    have hb' : ∀ p ∈ assocSet nm node.label pts.length,
        p.2 < (pts ++ [pt]).length := by
      intro p hp
      rcases assocSet_val_mem hp with h' | h'
      · simp [h']
      · have := hb p h'
        simp only [List.length_append, List.length_cons, List.length_nil]
        omega
    have hstep := ih t (pts ++ [pt]) (assocSet nm node.label pts.length) ht hb'
    refine ⟨?_, hstep.2.1, ?_⟩
    · rw [hstep.1]; simp; omega
    · intro l hl
      apply hstep.2.2
      rcases hl with h' | ⟨n, hn, hnl⟩
      · left
        rw [assocGet_assocSet_isSome]
        exact Or.inr h'
      · rcases List.mem_cons.mp hn with h'' | h''
        · left
          rw [assocGet_assocSet_isSome]
          left
          rw [← hnl, h'']
        · right
          exact ⟨n, h'', hnl⟩

theorem isSupported_iff (e : OdbElement) :
    isSupported e = true ↔ get_base_element_type e.typeCode ≠ Unsupported := by
  simp [isSupported]

theorem get_cells_go_spec (nm : NodeMap) :
    ∀ (elems : List OdbElement) (i : Nat) (acc : CellsResult),
      (∀ e ∈ elems, isSupported e = true →
        (mapConnectivity nm e.connectivity).isSome = true) →
      ∃ res, get_cells.go nm elems i acc = .ok res ∧
        res.cellTypes.length =
          acc.cellTypes.length + (elems.filter isSupported).length ∧
        res.connectivity.length =
          acc.connectivity.length + (elems.filter isSupported).length ∧
        res.warnings = acc.warnings + elems.countP (fun e => !isSupported e) ∧
        (∀ conn ∈ res.connectivity, conn ∈ acc.connectivity ∨
          ∃ e ∈ elems, isSupported e = true ∧
            mapConnectivity nm e.connectivity = some conn) ∧
        (∀ l : Int, (assocGet res.elementLabels l).isSome = true ↔
          ((assocGet acc.elementLabels l).isSome = true ∨
            ∃ e ∈ elems, isSupported e = true ∧ e.label = l)) := by
  intro elems
  induction elems with
  | nil =>
    intro i acc hyp
    refine ⟨acc, by simp [get_cells.go], by simp, by simp, by simp, ?_, ?_⟩
    · intro conn hconn
      exact Or.inl hconn
    · intro l
      simp
  | cons e rest ih =>
    intro i acc hyp
    by_cases hs : isSupported e = true
    · have hbase_ne : get_base_element_type e.typeCode ≠ Unsupported :=
        (isSupported_iff e).mp hs
      have hconn_some := hyp e (List.mem_cons_self _ _) hs
      have hct_some := cellMapAt_of_not_unsupported hbase_ne
      cases hct : cellMapAt (get_base_element_type e.typeCode) with
      | none => rw [hct] at hct_some; cases hct_some
      | some ct =>
      cases hmc : mapConnectivity nm e.connectivity with
      | none => rw [hmc] at hconn_some; cases hconn_some
      | some conn =>
      have hgo : get_cells.go nm (e :: rest) i acc =
          get_cells.go nm rest (i + 1)
            { cellTypes := acc.cellTypes ++ [ct]
              connectivity := acc.connectivity ++ [conn]
              sectionElements := appendSection acc.sectionElements
                (e.sectionCategory ++ ' ' :: e.typeCode) e
              elementLabels := assocSet acc.elementLabels e.label i
              warnings := acc.warnings } := by
        simp only [get_cells.go, if_neg hbase_ne, hct, hmc]
      rcases ih (i + 1) _
          (fun e' he' hs' => hyp e' (List.mem_cons_of_mem _ he') hs') with
        ⟨res, hres, h1, h2, h3, h4, h5⟩
      refine ⟨res, by rw [hgo]; exact hres, ?_, ?_, ?_, ?_, ?_⟩
      · rw [h1]
        simp only [List.filter_cons, hs, if_true, List.length_cons,
          List.length_append]
        simp
        omega
      · rw [h2]
        simp only [List.filter_cons, hs, if_true, List.length_cons,
          List.length_append]
        simp
        omega
      · rw [h3]
        simp only [List.countP_cons, hs]
        simp
      · intro conn' hconn'
        rcases h4 conn' hconn' with hmem | ⟨e', he', hs', hmc'⟩
        · rcases List.mem_append.mp hmem with hmem' | hmem'
          · exact Or.inl hmem'
          · right
            refine ⟨e, List.mem_cons_self _ _, hs, ?_⟩
            rw [hmc]
            simp at hmem'
            rw [hmem']
        · exact Or.inr ⟨e', List.mem_cons_of_mem _ he', hs', hmc'⟩
      · intro l
        rw [h5 l]
        rw [assocGet_assocSet_isSome]
        constructor
        · rintro ((h | h) | ⟨e', he', hs', hl'⟩)
          · exact Or.inr ⟨e, List.mem_cons_self _ _, hs, h.symm⟩
          · exact Or.inl h
          · exact Or.inr ⟨e', List.mem_cons_of_mem _ he', hs', hl'⟩
        · rintro (h | ⟨e', he', hs', hl'⟩)
          · exact Or.inl (Or.inr h)
          · rcases List.mem_cons.mp he' with he'' | he''
            · subst he''
              exact Or.inl (Or.inl hl'.symm)
            · exact Or.inr ⟨e', he'', hs', hl'⟩
    · have hbase : get_base_element_type e.typeCode = Unsupported := by
        by_contra hne
        exact hs ((isSupported_iff e).mpr hne)
      have hsf : isSupported e = false := by
        rw [Bool.not_eq_true] at hs
        exact hs
      have hgo : get_cells.go nm (e :: rest) i acc =
          get_cells.go nm rest (i + 1)
            { acc with warnings := acc.warnings + 1 } := by
        simp only [get_cells.go, hbase, if_true]
      rcases ih (i + 1) { acc with warnings := acc.warnings + 1 }
          (fun e' he' hs' => hyp e' (List.mem_cons_of_mem _ he') hs') with
        ⟨res, hres, h1, h2, h3, h4, h5⟩
      refine ⟨res, by rw [hgo]; exact hres, ?_, ?_, ?_, ?_, ?_⟩
      · rw [h1]
        simp [List.filter_cons, hsf]
      · rw [h2]
        simp [List.filter_cons, hsf]
      · rw [h3]
        simp only [List.countP_cons, hsf]
        simp
        omega
      · intro conn' hconn'
        rcases h4 conn' hconn' with hmem | ⟨e', he', hs', hmc'⟩
        · exact Or.inl hmem
        · exact Or.inr ⟨e', List.mem_cons_of_mem _ he', hs', hmc'⟩
      · intro l
        rw [h5 l]
        constructor
        · rintro (h | ⟨e', he', hs', hl'⟩)
          · exact Or.inl h
          · exact Or.inr ⟨e', List.mem_cons_of_mem _ he', hs', hl'⟩
        · rintro (h | ⟨e', he', hs', hl'⟩)
          · exact Or.inl h
          · rcases List.mem_cons.mp he' with he'' | he''
            · subst he''
              rw [hsf] at hs'
              cases hs'
            · exact Or.inr ⟨e', he'', hs', hl'⟩

/-- C7: mesh translation of an instance containing an element whose type code
resolves to no supported base type does not abort: `get_cells` still returns a
result, a warning is counted, the unsupported element contributes no cell to
the cell arrays and no entry to the element-label map, and every remaining
supported element is still converted (one cell each, with a label-map entry). -/
theorem c7_unsupported_element_skipped (nm : NodeMap) (elems : List OdbElement)
    (e : OdbElement)
    (hconn : ∀ e' ∈ elems, isSupported e' = true →
      (mapConnectivity nm e'.connectivity).isSome = true)
    (hlab : (elems.map (fun e' => e'.label)).Nodup)
    (he : e ∈ elems)
    (hu : get_base_element_type e.typeCode = Unsupported) :
    ∃ res, get_cells nm elems = .ok res ∧
      res.cellTypes.length = (elems.filter isSupported).length ∧
      res.connectivity.length = (elems.filter isSupported).length ∧
      assocGet res.elementLabels e.label = none ∧
      0 < res.warnings ∧
      (∀ e' ∈ elems, isSupported e' = true →
        (assocGet res.elementLabels e'.label).isSome = true) := by
  rcases get_cells_go_spec nm elems 0
      { cellTypes := [], connectivity := [], sectionElements := []
        elementLabels := [], warnings := 0 } hconn with
    ⟨res, hres, h1, h2, h3, _h4, h5⟩
  have hsf : isSupported e = false := by
    simp [isSupported, hu]
  refine ⟨res, hres, by simpa using h1, by simpa using h2, ?_, ?_, ?_⟩
  · rw [← Option.not_isSome_iff_eq_none]
    intro hsome
    rcases (h5 e.label).mp hsome with h | ⟨e', he', hs', hl'⟩
    · simp [assocGet] at h
    · have : e' = e := List.inj_on_of_nodup_map hlab he' he hl'
      rw [this, hsf] at hs'
      cases hs'
  · rw [h3]
    have : 0 < elems.countP (fun e' => !isSupported e') := by
      rw [List.countP_pos_iff]
      exact ⟨e, he, by simp [hsf]⟩
    omega
  · intro e' he' hs'
    exact (h5 e'.label).mpr (Or.inr ⟨e', he', hs', rfl⟩)

/-- C7 witness: an instance with one unsupported element (type `X1`, label 7)
and one supported shell triangle (type `S3`, label 9): translation succeeds,
exactly one cell is produced, label 7 is absent from the element map and
label 9 is present, and one warning is recorded. -/
theorem c7_unsupported_element_skipped_witness :
    ∃ res, get_cells [(1, 0), (2, 1)]
        [ { label := 7, typeCode := ['X','1'], connectivity := [1],
            sectionCategory := ['s'] },
          { label := 9, typeCode := ['S','3'], connectivity := [1, 2],
            sectionCategory := ['s'] } ] = .ok res ∧
      res.cellTypes.length =
        ([ { label := 7, typeCode := ['X','1'], connectivity := [1],
             sectionCategory := ['s'] },
           { label := 9, typeCode := ['S','3'], connectivity := [1, 2],
             sectionCategory := ['s'] } ].filter isSupported).length ∧
      res.connectivity.length =
        ([ { label := 7, typeCode := ['X','1'], connectivity := [1],
             sectionCategory := ['s'] },
           { label := 9, typeCode := ['S','3'], connectivity := [1, 2],
             sectionCategory := ['s'] } ].filter isSupported).length ∧
      assocGet res.elementLabels 7 = none ∧
      0 < res.warnings ∧
      (∀ e' ∈ [ { label := 7, typeCode := ['X','1'], connectivity := [1],
                  sectionCategory := ['s'] },
                { label := 9, typeCode := ['S','3'], connectivity := [1, 2],
                  sectionCategory := ['s'] } ],
        isSupported e' = true →
          (assocGet res.elementLabels e'.label).isSome = true) :=
  c7_unsupported_element_skipped [(1, 0), (2, 1)] _
    { label := 7, typeCode := ['X','1'], connectivity := [1],
      sectionCategory := ['s'] }
    (by decide) (by decide) (by decide) (by decide)

/-- C8: for an instance of 3-D, 2-D-planar or axisymmetric dimensionality the
translated point array has exactly one point per node, and (provided every
supported element's connectivity refers to nodes of the instance, so that the
node-map lookups succeed) every connectivity index stored in the cell arrays
is strictly less than the number of points. -/
theorem c8_points_count_and_index_bounds (nodes : List OdbNode)
    (t : OdbDimension) (elems : List OdbElement)
    (ht : t = .threeD ∨ t = .twoDPlanar ∨ t = .axisymmetric)
    (hconn : ∀ e ∈ elems, isSupported e = true →
      ∀ l ∈ e.connectivity, ∃ n ∈ nodes, n.label = l) :
    (get_points nodes t).1.length = nodes.length ∧
    ∃ res, get_cells (get_points nodes t).2 elems = .ok res ∧
      ∀ conn ∈ res.connectivity, ∀ idx ∈ conn,
        idx < (get_points nodes t).1.length := by
  have hinv := get_points_fold_inv nodes t [] [] ht (by simp)
  have hlen : (get_points nodes t).1.length = nodes.length := by
    have := hinv.1
    simpa [get_points] using this
  have hbound : ∀ p ∈ (get_points nodes t).2,
      p.2 < (get_points nodes t).1.length := hinv.2.1
  have hconn' : ∀ e ∈ elems, isSupported e = true →
      (mapConnectivity (get_points nodes t).2 e.connectivity).isSome = true := by
    intro e heq hs
    apply mapConnectivity_isSome
    intro l hl
    exact hinv.2.2 l (Or.inr (hconn e heq hs l hl))
  rcases get_cells_go_spec (get_points nodes t).2 elems 0
      { cellTypes := [], connectivity := [], sectionElements := []
        elementLabels := [], warnings := 0 } hconn' with
    ⟨res, hres, _h1, _h2, _h3, h4, _h5⟩
  refine ⟨hlen, res, hres, ?_⟩
  intro conn hc idx hidx
  rcases h4 conn hc with hmem | ⟨e, _he, _hs, hmc⟩
  · cases hmem
  · exact mapConnectivity_bound hmc hbound idx hidx

/-- C8 witness: a 3-D instance with two nodes and one supported `S3` element:
two points are produced and all stored connectivity indices are below 2. -/
theorem c8_points_count_and_index_bounds_witness :
    (get_points [ { label := 1, x := 0, y := 0, z := 0 },
                  { label := 2, x := 1, y := 0, z := 0 } ] .threeD).1.length =
      ([ { label := 1, x := 0, y := 0, z := 0 },
         { label := 2, x := 1, y := 0, z := 0 } ] : List OdbNode).length ∧
    ∃ res, get_cells
        (get_points [ { label := 1, x := 0, y := 0, z := 0 },
                      { label := 2, x := 1, y := 0, z := 0 } ] .threeD).2
        [ { label := 9, typeCode := ['S','3'], connectivity := [1, 2],
            sectionCategory := ['s'] } ] = .ok res ∧
      ∀ conn ∈ res.connectivity, ∀ idx ∈ conn,
        idx < (get_points [ { label := 1, x := 0, y := 0, z := 0 },
                            { label := 2, x := 1, y := 0, z := 0 } ]
                .threeD).1.length :=
  c8_points_count_and_index_bounds
    [ { label := 1, x := 0, y := 0, z := 0 },
      { label := 2, x := 1, y := 0, z := 0 } ] .threeD
    [ { label := 9, typeCode := ['S','3'], connectivity := [1, 2],
        sectionCategory := ['s'] } ]
    (Or.inl rfl) (by decide)

theorem if_bool_false (b x : Bool) :
    (if b = true then false else x) = (!b && x) := by
  cases b <;> simp

theorem any_bnot {α : Type} (l : List α) (p : α → Bool) :
    (l.any fun x => !p x) = !l.all p := by
  induction l with
  | nil => simp
  | cons a as ih => simp [ih, Bool.not_and]

theorem frame_body_eq (f : JVal) :
    (!(f.containsKey kStep) || !(f.get kStep).isString ||
      !(f.containsKey kList) || !(f.get kList).isArray ||
      (f.get kList).elements.isEmpty ||
      (f.get kList).elements.any (fun x => !x.isNumberInteger)) =
    !(frameEntryOk f) := by
  unfold frameEntryOk
  rw [any_bnot]
  generalize f.containsKey kStep = b1
  generalize (f.get kStep).isString = b2
  generalize f.containsKey kList = b3
  generalize (f.get kList).isArray = b4
  generalize (f.get kList).elements.isEmpty = b5
  generalize (f.get kList).elements.all (fun x => x.isNumberInteger) = b6
  revert b1 b2 b3 b4 b5 b6
  decide

theorem field_body_eq (f : JVal) :
    (!(f.containsKey kKey) || !(f.get kKey).isString) = !(fieldEntryOk f) := by
  unfold fieldEntryOk
  generalize f.containsKey kKey = b1
  generalize (f.get kKey).isString = b2
  revert b1 b2
  decide

/-- C9 counterexample: the request
`{"frames": [{"step": "Step-1", "list": [1]}], "fields": [{"key": "S"}]}`
satisfies the claimed validity rule (`instances` optional) but
`is_output_request_valid` rejects it: the code requires the `instances` key. -/
theorem c9_instances_required_counterexample :
    is_output_request_valid request_no_instances = false ∧
    request_valid_spec request_no_instances = true := by
  constructor
  · rfl
  · rfl

/-- C9 (amended): `is_output_request_valid` returns true for exactly the
documents satisfying the spec validity rule — frames and fields present as
non-empty arrays, each frame entry carrying a string step and a non-empty
all-integer list, each field entry carrying a string key — AND carrying an
`instances` key whose value is a string or a non-empty array of strings
(instances is required, not optional). -/
theorem c9_request_validator_characterization (r : JVal) :
    is_output_request_valid r = (instances_check r && request_valid_spec r) := by
  unfold is_output_request_valid instances_check request_valid_spec
  have hex : ¬((r.get kInstances).isArray = true ∧
      (r.get kInstances).isString = true) := by
    cases r.get kInstances <;> simp [JVal.isArray, JVal.isString]
  simp only [if_bool_false]
  simp only [frame_body_eq, field_body_eq]
  simp only [any_bnot]
  revert hex
  generalize r.containsKey kInstances = b1
  generalize (r.get kInstances).isArray = b2
  generalize (r.get kInstances).isString = b3
  generalize (r.get kInstances).elements.isEmpty = b4
  generalize (r.get kInstances).elements.all JVal.isString = b5
  generalize r.containsKey kFrames = b6
  generalize (r.get kFrames).isArray = b7
  generalize (r.get kFrames).elements.isEmpty = b8
  generalize (r.get kFrames).elements.all frameEntryOk = b9
  generalize r.containsKey kFields = b10
  generalize (r.get kFields).isArray = b11
  generalize (r.get kFields).elements.isEmpty = b12
  generalize (r.get kFields).elements.all fieldEntryOk = b13
  revert b1 b2 b3 b4 b5 b6 b7 b8 b9 b10 b11 b12 b13
  decide

end Otk
